import Mathlib

/-!
Shallow embedding of `immich-folder-albums.py`: a script that synchronizes a
filesystem hierarchy of media folders (declared by `.album` marker files) with
albums of a remote Immich instance.

The remote service, the local filesystem and the YAML parser are environment
oracles collected in a `World`; the script's own logic (`run`,
`find_album_by_name`, `process_album_name`, `ImmichAPI.delete_all_albums`, the
discovery, descriptor, chunking and per-directory processing code inlined in
`run`) is translated into executable Lean definitions below.
-/

namespace ImmichFolderAlbums

/-- A filesystem path, as its list of components below the root: `[]` is `/`,
`["photos", "2024"]` is `/photos/2024`.  Mirrors `pathlib.Path` on the
absolute paths reported by the Immich `unique-paths` endpoint. -/
abbrev FsPath := List String

/-- `pathlib.Path.parents`: every strict ancestor of the path, from the root
up to the immediate parent (the engine pours them into a set, so order is
immaterial; we enumerate the strict prefixes). -/
def parents (p : FsPath) : List FsPath :=
  (List.range p.length).map fun k => p.take k

/-- `pathlib.Path.is_relative_to`: for absolute paths this holds iff `base`
is a component-wise prefix of `p` (inclusive: a path is relative to itself). -/
def isRelativeTo (p base : FsPath) : Bool := base.isPrefixOf p

/-- `pathlib.Path.name`: the final path component (`""` for the root). -/
def leafName (p : FsPath) : String := p.getLast?.getD ""

/-- `str(path)` as a character list: the components joined by `/` with a
leading `/` (and `/` itself for the root). -/
def pathChars (p : FsPath) : List Char :=
  match p with
  | [] => ['/']
  | _ => p.flatMap fun comp => '/' :: comp.data

/-- Python's `<=` on strings: lexicographic comparison by code point, a
prefix preceding its extensions. -/
def charsLe : List Char → List Char → Bool
  | [], _ => true
  | _ :: _, [] => false
  | a :: as, b :: bs =>
    if a.toNat < b.toNat then true
    else if b.toNat < a.toNat then false
    else charsLe as bs

/-- The order used by python's `sorted` on `Path` objects (line 119 of the
script): ascending comparison of the rendered path strings. -/
def pathLE (p q : FsPath) : Prop := charsLe (pathChars p) (pathChars q) = true

instance : DecidableRel pathLE := fun _ _ =>
  inferInstanceAs (Decidable (_ = true))

/-- The recognized keys of a parsed `.album` marker file (`None` field =
key absent from the YAML mapping). -/
structure AlbumProps where
  name : Option String
  description : Option String
  order : Option String
  recursive : Option Bool
deriving DecidableEq

/-- Outcome of `yaml.safe_load` on a `.album` marker file (line 122): the
file can be unparsable (`yaml.YAMLError`, the spec's
`MalformedDescriptorError`), or parse to a document.  An empty or null or
otherwise falsy document is `parsed none`: line 123 replaces it with
`dict()`. -/
inductive MarkerParse where
  | malformed
  | parsed (props? : Option AlbumProps)
deriving DecidableEq

/-- Abstraction of a configured name-extraction regular expression
(`args.album_regex`): the function returns the text of `re.search`'s first
match on the given string, or `none` when the pattern does not match. -/
abbrev SearchFn := String → Option String

/-- `process_album_name` (lines 94-98): with no configured pattern the folder
name is used verbatim; otherwise the first match, falling back to the folder
name when the pattern does not match. -/
def process_album_name (regexp : Option SearchFn) (folder_name : String) : String :=
  match regexp with
  | none => folder_name
  | some search => (search folder_name).getD folder_name

/-- The resolved album configuration of one directory (lines 124-127). -/
structure Descriptor where
  name : String
  description : String
  order : String
  recursive : Bool
deriving DecidableEq

/-- Lines 123-127 of `run`: a falsy document becomes `dict()`, then each
field is read with `dict.get` and its default. -/
def resolveDescriptor (regexp : Option SearchFn) (leaf : String)
    (props? : Option AlbumProps) : Descriptor :=
  let props := props?.getD ⟨none, none, none, none⟩
  { name := props.name.getD (process_album_name regexp leaf)
    description := props.description.getD ""
    order := props.order.getD "desc"
    recursive := props.recursive.getD true }

/-- One album as returned by the Immich `/albums` endpoint (the two fields
the script reads). -/
structure AlbumInfo where
  id : String
  albumName : String
deriving DecidableEq

/-- `find_album_by_name` (lines 88-92): id of the first album in the list
whose `albumName` equals the requested name, else `None`. -/
def find_album_by_name (album_name : String) (albums : List AlbumInfo) : Option String :=
  match albums with
  | [] => none
  | album :: rest =>
    if album.albumName = album_name then some album.id
    else find_album_by_name album_name rest

/-- The remote calls the script can issue, as trace events. -/
inductive ApiCall where
  | getAlbums
  | getUniquePaths
  | getFolderAssets (p : FsPath)
  | createAlbum (name description : String)
  | albumAddAssets (albumId : String) (ids : List String)
  | deleteAlbum (id : String)
deriving DecidableEq

/-- The exceptions that can unwind out of the body of `run`. -/
inductive RunError where
  | http (call : ApiCall)
  | malformedDescriptor (p : FsPath)
deriving DecidableEq

def ApiCall.isCreate : ApiCall → Bool
  | .createAlbum _ _ => true
  | _ => false

def ApiCall.isAddAssets : ApiCall → Bool
  | .albumAddAssets _ _ => true
  | _ => false

def ApiCall.isDeleteCall : ApiCall → Bool
  | .deleteAlbum _ => true
  | _ => false

def ApiCall.isFolderFetch : ApiCall → Bool
  | .getFolderAssets _ => true
  | _ => false

/-- The environment of one invocation of `run`: responses of the remote
service, state of the local filesystem, and parse results of marker files.
`deletePhaseAlbums` answers the `get_albums` issued inside
`delete_all_albums` (line 82); `remoteAlbums` answers the run-start snapshot
`get_albums` (line 109); `freshIds k` is the id the remote assigns to the
`k`-th album created during the run; `deleteFails i` says whether
`delete_album(i)` raises (non-2xx or connectivity). -/
structure World where
  deletePhaseAlbums : List AlbumInfo
  remoteAlbums : List AlbumInfo
  uniquePaths : List FsPath
  folderAssets : FsPath → List String
  hasMarker : FsPath → Bool
  marker : FsPath → MarkerParse
  freshIds : Nat → String
  deleteFails : String → Bool

/-- Lines 112-117 of `run`: the candidate set is the asset paths plus every
ancestor of every asset path (a python `set`; modelled as a deduplicated
list). -/
def potentialAlbums (unique_paths : List FsPath) : List FsPath :=
  (unique_paths ++ unique_paths.flatMap parents).dedup

/-- Lines 117-119 of `run`: keep the candidates whose directory carries a
`.album` marker file, and process them in python's `sorted` order. -/
def discoveredAlbums (w : World) : List FsPath :=
  List.insertionSort pathLE ((potentialAlbums w.uniquePaths).filter fun p => w.hasMarker p)

/-- The asset paths lying at or below `root` (the `path.is_relative_to`
filter of lines 142-143). -/
def descendantPaths (w : World) (root : FsPath) : List FsPath :=
  w.uniquePaths.filter fun p => isRelativeTo p root

/-- Lines 139-147 of `run`: the ids of the assets directly under the album
directory, plus — when `recursive` — the ids under every asset path at or
below it; a python `set`, modelled as a deduplicated list. -/
def computeAssetIds (w : World) (root : FsPath) (recursive : Bool) : List String :=
  (w.folderAssets root ++
    (if recursive then descendantPaths w root else []).flatMap w.folderAssets).dedup

/-- Line 153 of `run`: `[ids[i:i+c] for i in range(0, len(ids), c)]`
(meaningful for `c > 0`, the guarded branch). -/
def makeChunks (chunk_size : Nat) (ids : List String) : List (List String) :=
  (List.range ((ids.length + chunk_size - 1) / chunk_size)).map
    fun j => (ids.drop (j * chunk_size)).take chunk_size

/-- Lines 150-155 of `run`: `if args.chunk_size:` — a `None` or zero chunk
size is falsy and yields the single chunk `[ids]`. -/
def submissionChunks (chunk_size : Option Nat) (ids : List String) : List (List String) :=
  match chunk_size with
  | none => [ids]
  | some 0 => [ids]
  | some c => makeChunks c ids

/-- The deletion loop of `ImmichAPI.delete_all_albums` (lines 84-85):
delete each id in listing order; the first failing call raises immediately.
Returns (trace of delete calls issued, ids actually deleted, error). -/
def deleteAlbumsSeq (deleteFails : String → Bool) :
    List String → List ApiCall × List String × Option RunError
  | [] => ([], [], none)
  | id :: rest =>
    if deleteFails id then
      ([ApiCall.deleteAlbum id], [], some (RunError.http (ApiCall.deleteAlbum id)))
    else
      let r := deleteAlbumsSeq deleteFails rest
      (ApiCall.deleteAlbum id :: r.1, id :: r.2.1, r.2.2)

/-- `ImmichAPI.delete_all_albums` (lines 81-85): list the albums once, then
delete them one by one in listing order. -/
def delete_all_albums (w : World) : List ApiCall × List String × Option RunError :=
  let albums_ids := w.deletePhaseAlbums.map fun a => a.id
  let r := deleteAlbumsSeq w.deleteFails albums_ids
  (ApiCall.getAlbums :: r.1, r.2.1, r.2.2)

/-- The sync engine's per-run mutable state: the trace of remote calls so
far, and how many albums this run created (used to index `World.freshIds`). -/
structure StepState where
  trace : List ApiCall
  nCreated : Nat
deriving DecidableEq

/-- The configuration flags of `run` (already resolved; CLI/env parsing is
out of scope). -/
structure Args where
  album_regex : Option SearchFn
  chunk_size : Option Nat
  dry_run : Bool
  delete_all_albums : Bool

/-- The document a marker parse carries (`none` when malformed — only used
under a "no malformed marker" hypothesis). -/
def markerProps? : MarkerParse → Option AlbumProps
  | .malformed => none
  | .parsed props? => props?

/-- The album name a directory resolves to (lines 122-124). -/
def resolvedName (args : Args) (w : World) (root : FsPath) : String :=
  (resolveDescriptor args.album_regex (leafName root) (markerProps? (w.marker root))).name

/-- One iteration of the `for album_root in sorted(albums)` loop
(lines 119-159): parse the marker (raising on malformed YAML), resolve the
descriptor, skip the rest under `--dry-run`, look the name up in the
run-start snapshot and create the album when absent, fetch the asset ids,
and submit them in chunks. -/
def processDir (args : Args) (w : World) (snapshot : List AlbumInfo)
    (st : StepState) (root : FsPath) : StepState × Option RunError :=
  match w.marker root with
  | .malformed => (st, some (RunError.malformedDescriptor root))
  | .parsed props? =>
    let d := resolveDescriptor args.album_regex (leafName root) props?
    if args.dry_run then (st, none)
    else
      let create :=
        match find_album_by_name d.name snapshot with
        | some album_id => (([] : List ApiCall), album_id, st.nCreated)
        | none =>
          ([ApiCall.createAlbum d.name d.description], w.freshIds st.nCreated, st.nCreated + 1)
      let descPaths := if d.recursive then descendantPaths w root else []
      let fetchTrace := ApiCall.getFolderAssets root :: descPaths.map ApiCall.getFolderAssets
      let ids := computeAssetIds w root d.recursive
      let chunks := submissionChunks args.chunk_size ids
      let addTrace := chunks.map fun chunk => ApiCall.albumAddAssets create.2.1 chunk
      (⟨st.trace ++ create.1 ++ fetchTrace ++ addTrace, create.2.2⟩, none)

/-- The whole `for album_root in sorted(albums)` loop: process the
directories in order, aborting at the first raised error (the remaining
directories are skipped for this run). -/
def processAll (args : Args) (w : World) (snapshot : List AlbumInfo) :
    StepState → List FsPath → StepState × Option RunError
  | st, [] => (st, none)
  | st, root :: rest =>
    match processDir args w snapshot st root with
    | (st', none) => processAll args w snapshot st' rest
    | (st', some e) => (st', some e)

/-- The body of `run` between `lock.acquire` and `lock.release`
(lines 104-159): optional upfront deletion of all albums, run-start album
snapshot, unique-paths listing, discovery, and the per-directory loop.
Returns the trace of remote calls and the error that unwound, if any. -/
def runBody (args : Args) (w : World) : List ApiCall × Option RunError :=
  let del := if args.delete_all_albums then delete_all_albums w else ([], [], none)
  match del.2.2 with
  | some e => (del.1, some e)
  | none =>
    let snapshot := w.remoteAlbums
    let st0 : StepState := ⟨del.1 ++ [ApiCall.getAlbums, ApiCall.getUniquePaths], 0⟩
    let r := processAll args w snapshot st0 (discoveredAlbums w)
    (r.1.trace, r.2)

/-- How one invocation of `run` ends: `skipped` is the early `return False`
when the flag is already held; `raised e` is an exception unwinding out of
the body. -/
inductive RunOutcome where
  | skipped
  | finished
  | raised (e : RunError)
deriving DecidableEq

/-- Observable result of one invocation of `run`: the remote calls issued,
how it ended, and whether the run-guard flag is still held afterwards. -/
structure RunResult where
  trace : List ApiCall
  outcome : RunOutcome
  lockHeldAfter : Bool
deriving DecidableEq

/-- `run` (lines 100-161).  `lock.acquire(blocking=False)` fails iff the
flag is already held (`lockHeld`).  `lock.release()` on line 161 is executed
only when the body returns normally: there is no `try`/`finally`, so an
exception leaves the flag held. -/
def run (args : Args) (w : World) (lockHeld : Bool) : RunResult :=
  if lockHeld then ⟨[], RunOutcome.skipped, lockHeld⟩
  else
    match runBody args w with
    | (t, none) => ⟨t, RunOutcome.finished, false⟩
    | (t, some e) => ⟨t, RunOutcome.raised e, true⟩

/-- `re.search(r"\d+", s)`: the first maximal run of decimal digits of `s`,
as an executable instance of a `SearchFn`. -/
def searchDigitsAux : List Char → Option String
  | [] => none
  | c :: rest =>
    if c.isDigit then some ⟨c :: rest.takeWhile (fun d => d.isDigit)⟩
    else searchDigitsAux rest

/-- The `SearchFn` of the pattern `\d+`. -/
def searchDigits (s : String) : Option String := searchDigitsAux s.data

/-- Whether a trace event is a `create_album` call with the given name. -/
def isCreateNamed (n : String) : ApiCall → Bool
  | .createAlbum name _ => name == n
  | _ => false

/-- A configuration with every optional feature off. -/
def plainArgs : Args where
  album_regex := none
  chunk_size := none
  dry_run := false
  delete_all_albums := false

/-- Like `plainArgs` but with `--dry-run`. -/
def dryArgs : Args where
  album_regex := none
  chunk_size := none
  dry_run := true
  delete_all_albums := false

/-- `--delete-all-albums` together with `--dry-run`. -/
def deleteDryArgs : Args where
  album_regex := none
  chunk_size := none
  dry_run := true
  delete_all_albums := true

/-- Two asset directories `/a` and `/b`, both carrying a marker that names
the album `"X"` explicitly; the remote has no albums. -/
def dupWorld : World where
  deletePhaseAlbums := []
  remoteAlbums := []
  uniquePaths := [["a"], ["b"]]
  folderAssets := fun _ => []
  hasMarker := fun p => p == ["a"] || p == ["b"]
  marker := fun _ => MarkerParse.parsed (some ⟨some "X", none, none, none⟩)
  freshIds := fun k => toString k
  deleteFails := fun _ => false

/-- One asset directory `/a` with a marker whose YAML is unparsable. -/
def leakWorld : World where
  deletePhaseAlbums := []
  remoteAlbums := []
  uniquePaths := [["a"]]
  folderAssets := fun _ => []
  hasMarker := fun p => p == ["a"]
  marker := fun _ => MarkerParse.malformed
  freshIds := fun k => toString k
  deleteFails := fun _ => false

/-- The spec's recursive-aggregation example: asset paths `/A` (assets
`{1,2}`) and `/A/B` (assets `{2,3}`), with a marker (empty file) on `/A`. -/
def exWorld : World where
  deletePhaseAlbums := []
  remoteAlbums := []
  uniquePaths := [["A"], ["A", "B"]]
  folderAssets := fun p => if p == ["A"] then ["1", "2"] else if p == ["A", "B"] then ["2", "3"] else []
  hasMarker := fun p => p == ["A"]
  marker := fun _ => MarkerParse.parsed none
  freshIds := fun k => toString k
  deleteFails := fun _ => false

/-- Three remote albums, of which deleting the middle one fails. -/
def failMidWorld : World where
  deletePhaseAlbums := [⟨"1", "A"⟩, ⟨"2", "B"⟩, ⟨"3", "C"⟩]
  remoteAlbums := []
  uniquePaths := []
  folderAssets := fun _ => []
  hasMarker := fun _ => false
  marker := fun _ => MarkerParse.parsed none
  freshIds := fun k => toString k
  deleteFails := fun i => i == "2"

/-- One remote album to delete, one marker directory to process. -/
def delWorld : World where
  deletePhaseAlbums := [⟨"d1", "Old"⟩]
  remoteAlbums := []
  uniquePaths := [["a"]]
  folderAssets := fun _ => []
  hasMarker := fun p => p == ["a"]
  marker := fun _ => MarkerParse.parsed none
  freshIds := fun k => toString k
  deleteFails := fun _ => false

/-- Ten asset ids, for the chunking example. -/
def tenIds : List String :=
  ["i0", "i1", "i2", "i3", "i4", "i5", "i6", "i7", "i8", "i9"]

theorem charsLe_total : ∀ a b : List Char, charsLe a b = true ∨ charsLe b a = true := by
  intro a
  induction a with
  | nil => intro b; left; rfl
  | cons x xs ih =>
    intro b
    cases b with
    | nil => right; rfl
    | cons y ys =>
      simp only [charsLe]
      rcases Nat.lt_trichotomy x.toNat y.toNat with h | h | h
      · left; simp [h]
      · have h' : ¬ x.toNat < y.toNat := by omega
        have h'' : ¬ y.toNat < x.toNat := by omega
        rcases ih ys with hc | hc
        · left; simp [h', h'', hc]
        · right; simp [h', h'', hc]
      · right; simp [h, Nat.lt_asymm h]

theorem charsLe_trans :
    ∀ a b c : List Char, charsLe a b = true → charsLe b c = true → charsLe a c = true := by
  intro a
  induction a with
  | nil => intro b c _ _; rfl
  | cons x xs ih =>
    intro b c hab hbc
    cases b with
    | nil => simp [charsLe] at hab
    | cons y ys =>
      cases c with
      | nil => simp [charsLe] at hbc
      | cons z zs =>
        simp only [charsLe] at hab hbc ⊢
        rcases Nat.lt_trichotomy x.toNat y.toNat with h1 | h1 | h1 <;>
          rcases Nat.lt_trichotomy y.toNat z.toNat with h2 | h2 | h2
        · rw [if_pos (by omega)]
        · rw [if_pos (by omega)]
        · rw [if_neg (by omega), if_pos h2] at hbc
          exact absurd hbc (by simp)
        · rw [if_pos (by omega)]
        · rw [if_neg (by omega), if_neg (by omega)]
          rw [if_neg (by omega), if_neg (by omega)] at hab
          rw [if_neg (by omega), if_neg (by omega)] at hbc
          exact ih ys zs hab hbc
        · rw [if_neg (by omega), if_pos h2] at hbc
          exact absurd hbc (by simp)
        · rw [if_neg (by omega), if_pos h1] at hab
          exact absurd hab (by simp)
        · rw [if_neg (by omega), if_pos h1] at hab
          exact absurd hab (by simp)
        · rw [if_neg (by omega), if_pos h1] at hab
          exact absurd hab (by simp)

theorem mem_parents {p q : FsPath} : p ∈ parents q ↔ p <+: q ∧ p ≠ q := by
  unfold parents
  simp only [List.mem_map, List.mem_range]
  constructor
  · rintro ⟨k, hk, rfl⟩
    refine ⟨List.take_prefix k q, fun h => ?_⟩
    have := congrArg List.length h
    simp [Nat.min_eq_left (Nat.le_of_lt hk)] at this
    omega
  · rintro ⟨hpre, hne⟩
    refine ⟨p.length, ?_, ?_⟩
    · rcases Nat.lt_or_ge p.length q.length with h | h
      · exact h
      · exact absurd (hpre.eq_of_length (Nat.le_antisymm hpre.length_le h)) hne
    · exact (List.prefix_iff_eq_take.mp hpre).symm

/-- Claim C1: the spec says the run-guard flag is released unconditionally,
including when the body raises.  The code has no `try`/`finally`:
`lock.release()` (line 161) is skipped when an exception unwinds out of the
body, so the flag stays held and every subsequent invocation is skipped.
Shown here on a world whose only marker file is malformed YAML: the run
raises, the flag remains held, and a second invocation is skipped. -/
theorem C1_run_guard_not_released :
    (run plainArgs leakWorld false).outcome
        = RunOutcome.raised (RunError.malformedDescriptor ["a"]) ∧
    (run plainArgs leakWorld false).lockHeldAfter = true ∧
    (run plainArgs leakWorld (run plainArgs leakWorld false).lockHeldAfter).outcome
        = RunOutcome.skipped := by
  decide

/-- Claim C2, counterexample: two marker directories `/a` and `/b` both
resolve to the album name `"X"`, absent from the run-start snapshot; the
claim says only the first triggers `create_album`, but the run issues two
`create_album` calls for that name (the snapshot list is never updated and
no created id is remembered across loop iterations). -/
theorem C2_counterexample :
    find_album_by_name "X" dupWorld.remoteAlbums = none ∧
    discoveredAlbums dupWorld = [["a"], ["b"]] ∧
    resolvedName plainArgs dupWorld ["a"] = "X" ∧
    resolvedName plainArgs dupWorld ["b"] = "X" ∧
    (run plainArgs dupWorld false).trace.countP (isCreateNamed "X") = 2 := by
  decide

theorem processAll_countP_create (args : Args) (w : World) (snap : List AlbumInfo)
    (n : String) (hdry : args.dry_run = false) :
    ∀ (roots : List FsPath) (st : StepState),
      (∀ r ∈ roots, w.marker r ≠ MarkerParse.malformed) →
      (processAll args w snap st roots).1.trace.countP (isCreateNamed n) =
        st.trace.countP (isCreateNamed n) +
          roots.countP (fun r =>
            (resolvedName args w r == n) &&
              (find_album_by_name (resolvedName args w r) snap).isNone) := by
  intro roots
  induction roots with
  | nil => intro st _; simp [processAll]
  | cons root rest ih =>
    intro st h
    have hroot := h root (List.mem_cons_self root rest)
    cases hm : w.marker root with
    | malformed => exact absurd hm hroot
    | parsed props? =>
      have hname : resolvedName args w root =
          (resolveDescriptor args.album_regex (leafName root) props?).name := by
        simp [resolvedName, hm, markerProps?]
      simp only [processAll, processDir, hm, hdry, Bool.false_eq_true, if_false]
      cases hfind : find_album_by_name
          (resolveDescriptor args.album_regex (leafName root) props?).name snap with
      | some album_id =>
        simp only [hfind]
        rw [ih _ (fun r hr => h r (List.mem_cons_of_mem _ hr))]
        simp only [List.countP_append, List.countP_cons, List.countP_nil]
        have hcond : ((resolvedName args w root == n) &&
            (find_album_by_name (resolvedName args w root) snap).isNone) = false := by
          rw [hname, hfind]
          simp
        have hfetch : ∀ c ∈ (if (resolveDescriptor args.album_regex (leafName root)
              props?).recursive then descendantPaths w root else []).map
                ApiCall.getFolderAssets, ¬ (isCreateNamed n c = true) := by
          intro c hc
          simp only [List.mem_map] at hc
          obtain ⟨q, _, rfl⟩ := hc
          simp [isCreateNamed]
        have hadd : ∀ c ∈ (submissionChunks args.chunk_size
              (computeAssetIds w root (resolveDescriptor args.album_regex (leafName root)
                props?).recursive)).map (ApiCall.albumAddAssets album_id),
            ¬ (isCreateNamed n c = true) := by
          intro c hc
          simp only [List.mem_map] at hc
          obtain ⟨q, _, rfl⟩ := hc
          simp [isCreateNamed]
        rw [List.countP_eq_zero.mpr hfetch, List.countP_eq_zero.mpr hadd]
        simp [isCreateNamed, hcond]
      | none =>
        simp only [hfind]
        rw [ih _ (fun r hr => h r (List.mem_cons_of_mem _ hr))]
        simp only [List.countP_append, List.countP_cons, List.countP_nil]
        have hcond : ((resolvedName args w root == n) &&
            (find_album_by_name (resolvedName args w root) snap).isNone) =
              ((resolveDescriptor args.album_regex (leafName root) props?).name == n) := by
          rw [hname, hfind]
          simp
        have hfetch : ∀ c ∈ (if (resolveDescriptor args.album_regex (leafName root)
              props?).recursive then descendantPaths w root else []).map
                ApiCall.getFolderAssets, ¬ (isCreateNamed n c = true) := by
          intro c hc
          simp only [List.mem_map] at hc
          obtain ⟨q, _, rfl⟩ := hc
          simp [isCreateNamed]
        have hadd : ∀ c ∈ (submissionChunks args.chunk_size
              (computeAssetIds w root (resolveDescriptor args.album_regex (leafName root)
                props?).recursive)).map (ApiCall.albumAddAssets (w.freshIds st.nCreated)),
            ¬ (isCreateNamed n c = true) := by
          intro c hc
          simp only [List.mem_map] at hc
          obtain ⟨q, _, rfl⟩ := hc
          simp [isCreateNamed]
        rw [List.countP_eq_zero.mpr hfetch, List.countP_eq_zero.mpr hadd]
        simp only [hcond, isCreateNamed, Bool.false_eq_true, if_false]
        omega

/-- Claim C2, amended: the code keeps no in-run memory of freshly created
albums — the run-start snapshot is the only lookup source.  Every processed
directory whose resolved name is absent from the snapshot triggers its own
`create_album` call (so `k` directories resolving to the same absent name
cause `k` creations, not one); when the snapshot does contain the name, no
`create_album` call with that name ever occurs. -/
theorem C2_create_per_directory (args : Args) (w : World) (n : String)
    (hdry : args.dry_run = false) (hdel : args.delete_all_albums = false)
    (hok : ∀ r ∈ discoveredAlbums w, w.marker r ≠ MarkerParse.malformed) :
    (run args w false).trace.countP (isCreateNamed n) =
      if (find_album_by_name n w.remoteAlbums).isNone then
        (discoveredAlbums w).countP (fun r => resolvedName args w r == n)
      else 0 := by
  have hbody : run args w false =
      match runBody args w with
      | (t, none) => ⟨t, RunOutcome.finished, false⟩
      | (t, some e) => ⟨t, RunOutcome.raised e, true⟩ := by
    simp [run]
  simp only [runBody, hdel, Bool.false_eq_true, if_false] at hbody
  rw [hbody]
  have hcnt := processAll_countP_create args w w.remoteAlbums n hdry (discoveredAlbums w)
    ⟨[ApiCall.getAlbums, ApiCall.getUniquePaths], 0⟩ hok
  rcases hp : processAll args w w.remoteAlbums
      ⟨[ApiCall.getAlbums, ApiCall.getUniquePaths], 0⟩ (discoveredAlbums w) with ⟨st, err⟩
  rw [hp] at hcnt
  have hzero : (([ApiCall.getAlbums, ApiCall.getUniquePaths] : List ApiCall)).countP
      (isCreateNamed n) = 0 := by
    simp [isCreateNamed]
  cases hfind : find_album_by_name n w.remoteAlbums with
  | none =>
    have hcong : (discoveredAlbums w).countP (fun r =>
          (resolvedName args w r == n) &&
            (find_album_by_name (resolvedName args w r) w.remoteAlbums).isNone) =
        (discoveredAlbums w).countP (fun r => resolvedName args w r == n) := by
      apply List.countP_congr
      intro r _
      by_cases he : resolvedName args w r = n
      · simp [he, hfind]
      · simp [he]
    cases err <;> simp_all
  | some aid =>
    have hz : (discoveredAlbums w).countP (fun r =>
          (resolvedName args w r == n) &&
            (find_album_by_name (resolvedName args w r) w.remoteAlbums).isNone) = 0 := by
      apply List.countP_eq_zero.mpr
      intro r _
      by_cases he : resolvedName args w r = n
      · simp [he, hfind]
      · simp [he]
    cases err <;> simp_all

/-- Witness for C2's amended theorem: instantiated on the two-directory
world, giving `2` creations of the name `"X"`. -/
theorem C2_create_per_directory_witness :
    (run plainArgs dupWorld false).trace.countP (isCreateNamed "X") =
      if (find_album_by_name "X" dupWorld.remoteAlbums).isNone then
        (discoveredAlbums dupWorld).countP (fun r => resolvedName plainArgs dupWorld r == "X")
      else 0 :=
  C2_create_per_directory plainArgs dupWorld "X" rfl rfl (by decide)

/-- Claim C3: the discovered album list holds exactly the paths that are an
asset path or a strict ancestor of one (root through immediate parent) and
carry a marker file, and the engine's processing list is sorted ascending in
the path order used by python's `sorted`. -/
theorem C3_discovery_exact_and_sorted (w : World) :
    (∀ p : FsPath, p ∈ discoveredAlbums w ↔
        ((p ∈ w.uniquePaths ∨ ∃ q ∈ w.uniquePaths, p <+: q ∧ p ≠ q) ∧
          w.hasMarker p = true)) ∧
    List.Sorted pathLE (discoveredAlbums w) := by
  constructor
  · intro p
    unfold discoveredAlbums potentialAlbums
    rw [(List.perm_insertionSort pathLE _).mem_iff]
    simp only [List.mem_filter, List.mem_dedup, List.mem_append, List.mem_flatMap]
    constructor
    · rintro ⟨hmem, hmark⟩
      refine ⟨?_, hmark⟩
      rcases hmem with h | ⟨q, hq, hpar⟩
      · exact Or.inl h
      · exact Or.inr ⟨q, hq, mem_parents.mp hpar⟩
    · rintro ⟨hmem, hmark⟩
      refine ⟨?_, hmark⟩
      rcases hmem with h | ⟨q, hq, hpre⟩
      · exact Or.inl h
      · exact Or.inr ⟨q, hq, mem_parents.mpr hpre⟩
  · haveI : IsTotal FsPath pathLE := ⟨fun p q => charsLe_total _ _⟩
    haveI : IsTrans FsPath pathLE := ⟨fun _ _ _ h h' => charsLe_trans _ _ _ h h'⟩
    exact List.sorted_insertionSort pathLE _

/-- Claim C4: with `recursive` the computed membership is the set union of
the directly listed asset ids and the ids under every asset path strictly
below the album directory (duplicates collapse); without `recursive` it is
the direct ids only.  Includes the spec's `/A`, `/A/B` example. -/
theorem C4_asset_membership :
    (∀ (w : World) (root : FsPath) (recursive : Bool),
      (computeAssetIds w root recursive).toFinset =
        (w.folderAssets root).toFinset ∪
          (if recursive then
            ((w.uniquePaths.filter fun p => isRelativeTo p root && p != root).toFinset.biUnion
              fun p => (w.folderAssets p).toFinset)
          else ∅)) ∧
    (computeAssetIds exWorld ["A"] true).toFinset = {"1", "2", "3"} ∧
    (computeAssetIds exWorld ["A"] false).toFinset = {"1", "2"} := by
  refine ⟨?_, by decide, by decide⟩
  intro w root recursive
  ext x
  cases recursive with
  | false => simp [computeAssetIds]
  | true =>
    simp only [computeAssetIds, descendantPaths, if_true, List.mem_toFinset,
      Finset.mem_union, Finset.mem_biUnion, List.mem_dedup, List.mem_append,
      List.mem_flatMap, List.mem_filter, Bool.and_eq_true, bne_iff_ne]
    constructor
    · rintro (hx | ⟨p, ⟨hp, hrel⟩, hxp⟩)
      · exact Or.inl hx
      · by_cases hpr : p = root
        · subst hpr; exact Or.inl hxp
        · exact Or.inr ⟨p, ⟨hp, hrel, hpr⟩, hxp⟩
    · rintro (hx | ⟨p, ⟨hp, hrel, hne⟩, hxp⟩)
      · exact Or.inl hx
      · exact Or.inr ⟨p, ⟨hp, hrel⟩, hxp⟩

theorem range_slices_flatten (c : Nat) (l : List String) :
    ∀ k, ((List.range k).map fun j => (l.drop (j * c)).take c).flatten = l.take (k * c) := by
  intro k
  induction k with
  | zero => simp
  | succ k ih =>
    rw [List.range_succ, List.map_append, List.flatten_append]
    simp only [List.map_cons, List.map_nil, List.flatten_cons, List.flatten_nil,
      List.append_nil]
    rw [ih, Nat.succ_mul, List.take_add]

theorem le_ceilDiv_mul (n c : Nat) (hc : 0 < c) : n ≤ (n + c - 1) / c * c := by
  have hdm := Nat.div_add_mod (n + c - 1) c
  have hlt : (n + c - 1) % c < c := Nat.mod_lt _ hc
  rw [Nat.mul_comm]
  generalize c * ((n + c - 1) / c) = m at hdm ⊢
  generalize (n + c - 1) % c = r at hdm hlt
  omega

theorem makeChunks_flatten (c : Nat) (hc : 0 < c) (l : List String) :
    (makeChunks c l).flatten = l := by
  unfold makeChunks
  rw [range_slices_flatten c l]
  exact List.take_of_length_le (le_ceilDiv_mul l.length c hc)

theorem makeChunks_sizes (c : Nat) (l : List String) :
    ∀ ch ∈ makeChunks c l, ch.length ≤ c := by
  intro ch hch
  simp only [makeChunks, List.mem_map, List.mem_range] at hch
  obtain ⟨j, _, rfl⟩ := hch
  simp only [List.length_take]
  omega

/-- Claim C5: with a positive chunk size `c` the asset ids are cut in order
into consecutive chunks of size at most `c` whose concatenation is the
original list (`[4,4,2]` for ten ids with `c = 4`); an unset or zero chunk
size yields the single chunk holding all ids. -/
theorem C5_chunking (ids : List String) :
    (∀ c : Nat, 0 < c →
        (submissionChunks (some c) ids).flatten = ids ∧
        ((submissionChunks (some c) ids).all fun ch => decide (ch.length ≤ c)) = true) ∧
    submissionChunks none ids = [ids] ∧
    submissionChunks (some 0) ids = [ids] ∧
    (submissionChunks (some 4) tenIds).map List.length = [4, 4, 2] := by
  refine ⟨?_, rfl, rfl, by decide⟩
  intro c hc
  match c, hc with
  | c + 1, _ =>
    constructor
    · exact makeChunks_flatten (c + 1) (Nat.succ_pos c) ids
    · rw [List.all_eq_true]
      intro ch hch
      simpa using makeChunks_sizes (c + 1) ids ch hch

/-- Witness for C5 at ten concrete ids and chunk size 4. -/
theorem C5_chunking_witness :
    (submissionChunks (some 4) tenIds).flatten = tenIds ∧
    ((submissionChunks (some 4) tenIds).all fun ch => decide (ch.length ≤ 4)) = true :=
  (C5_chunking tenIds).1 4 (by omega)

/-- Claim C6: precedence of album-name resolution — an explicit `name` key
wins; else the first match of the configured pattern against the leaf name;
else (no match, or no pattern) the leaf name verbatim. -/
theorem C6_name_precedence (pat : SearchFn) (leaf : String) (props : AlbumProps) :
    (∀ rx : Option SearchFn, ∀ n, props.name = some n →
        (resolveDescriptor rx leaf (some props)).name = n) ∧
    (props.name = none → ∀ m, pat leaf = some m →
        (resolveDescriptor (some pat) leaf (some props)).name = m) ∧
    (props.name = none → pat leaf = none →
        (resolveDescriptor (some pat) leaf (some props)).name = leaf) ∧
    (props.name = none → (resolveDescriptor none leaf (some props)).name = leaf) := by
  refine ⟨?_, ?_, ?_, ?_⟩ <;> intros <;>
    simp_all [resolveDescriptor, process_album_name]

/-- Witness for C6: the pattern `\d+` on leaf name `"2024 Vacation"` (no
explicit `name` key) resolves to `"2024"`. -/
theorem C6_name_precedence_witness :
    (resolveDescriptor (some searchDigits) "2024 Vacation"
        (some ⟨none, none, none, none⟩)).name = "2024" :=
  (C6_name_precedence searchDigits "2024 Vacation" ⟨none, none, none, none⟩).2.1
    rfl "2024" (by decide)

/-- Claim C7: an empty (or null) marker file resolves to the all-defaults
descriptor — name is the (possibly pattern-transformed) leaf name,
description `""`, order `"desc"`, recursive `true` — and processing such a
directory never raises. -/
theorem C7_empty_marker_defaults :
    (∀ (rx : Option SearchFn) (leaf : String),
        resolveDescriptor rx leaf none =
          ⟨process_album_name rx leaf, "", "desc", true⟩) ∧
    (∀ (args : Args) (w : World) (st : StepState) (root : FsPath),
        w.marker root = MarkerParse.parsed none →
        (processDir args w w.remoteAlbums st root).2 = none) := by
  constructor
  · intro rx leaf
    rfl
  · intro args w st root hm
    simp only [processDir, hm]
    by_cases hd : args.dry_run <;> simp [hd]

/-- Witness for C7 on the example world (its marker files are empty). -/
theorem C7_empty_marker_defaults_witness :
    resolveDescriptor none "A" none = ⟨"A", "", "desc", true⟩ ∧
    (processDir plainArgs exWorld exWorld.remoteAlbums ⟨[], 0⟩ ["A"]).2 = none :=
  ⟨C7_empty_marker_defaults.1 none "A",
    C7_empty_marker_defaults.2 plainArgs exWorld ⟨[], 0⟩ ["A"] rfl⟩

theorem processAll_dry (args : Args) (w : World) (snap : List AlbumInfo)
    (hdry : args.dry_run = true) :
    ∀ (roots : List FsPath) (st : StepState), (processAll args w snap st roots).1 = st := by
  intro roots
  induction roots with
  | nil => intro st; rfl
  | cons root rest ih =>
    intro st
    cases hm : w.marker root with
    | malformed => simp [processAll, processDir, hm]
    | parsed props? => simp [processAll, processDir, hm, hdry, ih]

theorem deleteAlbumsSeq_calls (fails : String → Bool) :
    ∀ ids : List String, ∀ c ∈ (deleteAlbumsSeq fails ids).1,
      ∃ i, c = ApiCall.deleteAlbum i := by
  intro ids
  induction ids with
  | nil => intro c hc; simp [deleteAlbumsSeq] at hc
  | cons id rest ih =>
    intro c hc
    by_cases hf : fails id
    · simp only [deleteAlbumsSeq, hf, if_true, List.mem_singleton] at hc
      exact ⟨id, hc⟩
    · simp only [deleteAlbumsSeq, hf, Bool.false_eq_true, if_false, List.mem_cons] at hc
      rcases hc with rfl | hc
      · exact ⟨id, rfl⟩
      · exact ih c hc

/-- Every call issued by `delete_all_albums` is the single album listing or
one of the sequential deletions. -/
theorem delete_trace_shape (w : World) :
    ∀ c ∈ (delete_all_albums w).1,
      c = ApiCall.getAlbums ∨ ∃ i, c = ApiCall.deleteAlbum i := by
  intro c hc
  simp only [delete_all_albums, List.mem_cons] at hc
  rcases hc with rfl | hc
  · exact Or.inl rfl
  · exact Or.inr (deleteAlbumsSeq_calls w.deleteFails _ c hc)

/-- Claim C8: with `--dry-run` the whole run issues no `create_album` and no
`add assets` call, regardless of the snapshot's content (upfront deletion,
when separately requested, still runs, but is neither of those calls). -/
theorem C8_dry_run_no_mutations (args : Args) (w : World) (lockHeld : Bool)
    (hdry : args.dry_run = true) :
    ((run args w lockHeld).trace.all fun c => !c.isCreate && !c.isAddAssets) = true := by
  cases lockHeld with
  | true => rfl
  | false =>
    have htrace : (run args w false).trace = (runBody args w).1 := by
      rcases hb : runBody args w with ⟨t, e⟩
      cases e <;> simp [run, hb]
    rw [List.all_eq_true, htrace]
    intro c hc
    by_cases hda : args.delete_all_albums
    · simp only [runBody, hda, if_true] at hc
      rcases he : (delete_all_albums w).2.2 with _ | e
      all_goals rw [he] at hc
      · simp only at hc
        rw [processAll_dry args w w.remoteAlbums hdry] at hc
        simp only [List.mem_append, List.mem_cons, List.not_mem_nil, or_false] at hc
        rcases hc with hc | rfl | rfl
        · rcases delete_trace_shape w c hc with rfl | ⟨i, rfl⟩ <;> rfl
        · rfl
        · rfl
      · simp only at hc
        rcases delete_trace_shape w c hc with rfl | ⟨i, rfl⟩ <;> rfl
    · simp only [runBody, hda, Bool.false_eq_true, if_false] at hc
      rw [processAll_dry args w w.remoteAlbums hdry] at hc
      simp only [List.nil_append, List.mem_cons, List.not_mem_nil, or_false] at hc
      rcases hc with rfl | rfl <;> rfl

/-- Witness for C8: the two-marker world under `--dry-run`. -/
theorem C8_dry_run_no_mutations_witness :
    ((run dryArgs dupWorld false).trace.all fun c => !c.isCreate && !c.isAddAssets) = true :=
  C8_dry_run_no_mutations dryArgs dupWorld false rfl

theorem deleteAlbumsSeq_success (fails : String → Bool) :
    ∀ ids : List String, (∀ i ∈ ids, fails i = false) →
      deleteAlbumsSeq fails ids = (ids.map ApiCall.deleteAlbum, ids, none) := by
  intro ids
  induction ids with
  | nil => intro _; rfl
  | cons id rest ih =>
    intro h
    have h0 : fails id = false := h id (List.mem_cons_self _ _)
    simp [deleteAlbumsSeq, h0, ih fun i hi => h i (List.mem_cons_of_mem _ hi)]

theorem deleteAlbumsSeq_failure (fails : String → Bool) (bad : String)
    (hbad : fails bad = true) :
    ∀ (pre : List String) (post : List String), (∀ i ∈ pre, fails i = false) →
      deleteAlbumsSeq fails (pre ++ bad :: post) =
        ((pre ++ [bad]).map ApiCall.deleteAlbum, pre,
          some (RunError.http (ApiCall.deleteAlbum bad))) := by
  intro pre
  induction pre with
  | nil => intro post _; simp [deleteAlbumsSeq, hbad]
  | cons id rest ih =>
    intro post h
    have h0 : fails id = false := h id (List.mem_cons_self _ _)
    simp [deleteAlbumsSeq, h0, ih post fun i hi => h i (List.mem_cons_of_mem _ hi)]

/-- Claim C9: `delete_all_albums` lists the albums once and deletes them
one by one in listing order.  When every deletion succeeds, all albums are
deleted; when one fails, the error propagates at once — the albums before
it stay deleted, and no deletion is attempted past the failing one. -/
theorem C9_delete_all_sequential (w : World) :
    ((∀ a ∈ w.deletePhaseAlbums, w.deleteFails a.id = false) →
        delete_all_albums w =
          (ApiCall.getAlbums :: w.deletePhaseAlbums.map fun a => ApiCall.deleteAlbum a.id,
            w.deletePhaseAlbums.map fun a => a.id, none)) ∧
    (∀ (pre post : List String) (bad : String),
        (w.deletePhaseAlbums.map fun a => a.id) = pre ++ bad :: post →
        (∀ i ∈ pre, w.deleteFails i = false) → w.deleteFails bad = true →
        delete_all_albums w =
          (ApiCall.getAlbums :: (pre ++ [bad]).map ApiCall.deleteAlbum,
            pre, some (RunError.http (ApiCall.deleteAlbum bad)))) := by
  constructor
  · intro h
    have hok : ∀ i ∈ w.deletePhaseAlbums.map fun a => a.id, w.deleteFails i = false := by
      intro i hi
      simp only [List.mem_map] at hi
      obtain ⟨a, ha, rfl⟩ := hi
      exact h a ha
    simp only [delete_all_albums]
    rw [deleteAlbumsSeq_success w.deleteFails _ hok, List.map_map]
    rfl
  · intro pre post bad hids hpre hbad
    simp only [delete_all_albums, hids]
    rw [deleteAlbumsSeq_failure w.deleteFails bad hbad pre post hpre]

/-- Witness for C9: three albums, deletion of the middle one fails — the
first stays deleted, the third is never attempted. -/
theorem C9_delete_all_sequential_witness :
    delete_all_albums failMidWorld =
      (ApiCall.getAlbums :: (["1"] ++ ["2"]).map ApiCall.deleteAlbum,
        ["1"], some (RunError.http (ApiCall.deleteAlbum "2"))) :=
  (C9_delete_all_sequential failMidWorld).2 ["1"] ["3"] "2" rfl (by decide) rfl

theorem processAll_trace_ext (args : Args) (w : World) (snap : List AlbumInfo) :
    ∀ (roots : List FsPath) (st : StepState),
      ∃ ext, (processAll args w snap st roots).1.trace = st.trace ++ ext ∧
        ∀ c ∈ ext, c.isDeleteCall = false := by
  intro roots
  induction roots with
  | nil => intro st; exact ⟨[], by simp [processAll], by simp⟩
  | cons root rest ih =>
    intro st
    cases hm : w.marker root with
    | malformed => exact ⟨[], by simp [processAll, processDir, hm], by simp⟩
    | parsed props? =>
      by_cases hd : args.dry_run
      · obtain ⟨ext, hext, hprop⟩ := ih st
        exact ⟨ext, by simp [processAll, processDir, hm, hd, hext], hprop⟩
      · rcases hfind : find_album_by_name
            (resolveDescriptor args.album_regex (leafName root) props?).name snap
          with _ | album_id
        · obtain ⟨ext, hext, hprop⟩ := ih
            ⟨st.trace ++ [ApiCall.createAlbum
                (resolveDescriptor args.album_regex (leafName root) props?).name
                (resolveDescriptor args.album_regex (leafName root) props?).description] ++
              (ApiCall.getFolderAssets root ::
                (if (resolveDescriptor args.album_regex (leafName root) props?).recursive
                  then descendantPaths w root else []).map ApiCall.getFolderAssets) ++
              (submissionChunks args.chunk_size
                  (computeAssetIds w root
                    (resolveDescriptor args.album_regex (leafName root) props?).recursive)).map
                (ApiCall.albumAddAssets (w.freshIds st.nCreated)),
              st.nCreated + 1⟩
          refine ⟨[ApiCall.createAlbum
              (resolveDescriptor args.album_regex (leafName root) props?).name
              (resolveDescriptor args.album_regex (leafName root) props?).description] ++
            (ApiCall.getFolderAssets root ::
              (if (resolveDescriptor args.album_regex (leafName root) props?).recursive
                then descendantPaths w root else []).map ApiCall.getFolderAssets) ++
            (submissionChunks args.chunk_size
                (computeAssetIds w root
                  (resolveDescriptor args.album_regex (leafName root) props?).recursive)).map
              (ApiCall.albumAddAssets (w.freshIds st.nCreated)) ++ ext, ?_, ?_⟩
          · simp only [processAll, processDir, hm, hd, Bool.false_eq_true, if_false, hfind]
            rw [hext]
            simp [List.append_assoc]
          · intro c hc
            simp only [List.mem_append, List.mem_cons, List.mem_map,
              List.not_mem_nil, or_false] at hc
            rcases hc with ((rfl | (rfl | ⟨q, _, rfl⟩)) | ⟨q, _, rfl⟩) | hc
            · rfl
            · rfl
            · rfl
            · rfl
            · exact hprop c hc
        · obtain ⟨ext, hext, hprop⟩ := ih
            ⟨st.trace ++ [] ++
              (ApiCall.getFolderAssets root ::
                (if (resolveDescriptor args.album_regex (leafName root) props?).recursive
                  then descendantPaths w root else []).map ApiCall.getFolderAssets) ++
              (submissionChunks args.chunk_size
                  (computeAssetIds w root
                    (resolveDescriptor args.album_regex (leafName root) props?).recursive)).map
                (ApiCall.albumAddAssets album_id),
              st.nCreated⟩
          refine ⟨(ApiCall.getFolderAssets root ::
              (if (resolveDescriptor args.album_regex (leafName root) props?).recursive
                then descendantPaths w root else []).map ApiCall.getFolderAssets) ++
            (submissionChunks args.chunk_size
                (computeAssetIds w root
                  (resolveDescriptor args.album_regex (leafName root) props?).recursive)).map
              (ApiCall.albumAddAssets album_id) ++ ext, ?_, ?_⟩
          · simp only [processAll, processDir, hm, hd, Bool.false_eq_true, if_false, hfind]
            rw [hext]
            simp [List.append_assoc]
          · intro c hc
            simp only [List.mem_append, List.mem_cons, List.mem_map] at hc
            rcases hc with ((rfl | ⟨q, _, rfl⟩) | ⟨q, _, rfl⟩) | hc
            · rfl
            · rfl
            · rfl
            · exact hprop c hc

/-- Claim C10: when the delete-all-albums flag is set and the run-guard flag
is acquired, the whole `delete_all_albums` call sequence comes first in the
trace — before the snapshot refresh, the unique-paths listing, and any
per-album call — and nothing after it deletes an album.  Holds for any
`dry_run` value: dry-run suppresses only creation and asset addition. -/
theorem C10_delete_first (args : Args) (w : World)
    (hda : args.delete_all_albums = true) :
    ∃ rest, (run args w false).trace = (delete_all_albums w).1 ++ rest ∧
      (rest.all fun c => !c.isDeleteCall) = true ∧
      ((delete_all_albums w).1.all fun c =>
        !c.isCreate && !c.isAddAssets && !c.isFolderFetch &&
          !(c == ApiCall.getUniquePaths)) = true := by
  have hshape : ((delete_all_albums w).1.all fun c =>
      !c.isCreate && !c.isAddAssets && !c.isFolderFetch &&
        !(c == ApiCall.getUniquePaths)) = true := by
    rw [List.all_eq_true]
    intro c hc
    rcases delete_trace_shape w c hc with rfl | ⟨i, rfl⟩ <;> rfl
  have htrace : (run args w false).trace = (runBody args w).1 := by
    rcases hb : runBody args w with ⟨t, e⟩
    cases e <;> simp [run, hb]
  rw [htrace]
  rcases he : (delete_all_albums w).2.2 with _ | e
  · obtain ⟨ext, hext, hprop⟩ := processAll_trace_ext args w w.remoteAlbums
      (discoveredAlbums w)
      ⟨(delete_all_albums w).1 ++ [ApiCall.getAlbums, ApiCall.getUniquePaths], 0⟩
    refine ⟨[ApiCall.getAlbums, ApiCall.getUniquePaths] ++ ext, ?_, ?_, hshape⟩
    · simp only [runBody, hda, if_true, he]
      rw [hext]
      simp [List.append_assoc]
    · rw [List.all_eq_true]
      intro c hc
      simp only [List.mem_append, List.mem_cons, List.not_mem_nil, or_false] at hc
      rcases hc with (rfl | rfl) | hc
      · rfl
      · rfl
      · simp [hprop c hc]
  · refine ⟨[], ?_, rfl, hshape⟩
    simp only [runBody, hda, if_true, he, List.append_nil]

/-- Witness for C10: delete-all together with dry-run on a world with one
remote album and one marker directory. -/
theorem C10_delete_first_witness :
    ∃ rest, (run deleteDryArgs delWorld false).trace =
        (delete_all_albums delWorld).1 ++ rest ∧
      (rest.all fun c => !c.isDeleteCall) = true ∧
      ((delete_all_albums delWorld).1.all fun c =>
        !c.isCreate && !c.isAddAssets && !c.isFolderFetch &&
          !(c == ApiCall.getUniquePaths)) = true :=
  C10_delete_first deleteDryArgs delWorld rfl

end ImmichFolderAlbums
